import Mathlib

/-!
The `export-updaters` subcommand of clairctl.

A shallow embedding of `exportAction` from `cmd/clairctl/export.go`.

The action is effectful Go code calling into libraries that live outside the
repository (`os`, `encoding/json`, `httputil`, `jsonblob`, `updates`, `cli`).
The embedding makes every effect explicit:

* the outcome of each external call is read from an environment `Env`;
* every external call is logged, in program order, as an `Event`;
* `defer` statements push onto an explicit stack that is unwound last-in
  first-out once the body has produced its return value.
-/

namespace Clairctl

/-! ## Go values -/

/-- Go `error` values that are not nil. `errorsNew` is an ordinary error carrying a
message, `cliExit` is the value built by `cli.Exit(message, code)`. -/
inductive GoError where
  | errorsNew (msg : String)
  | cliExit (msg : String) (code : Int)
  deriving DecidableEq, Repr

/-- Method `Error()` of an error value. -/
def GoError.Error : GoError → String
  | .errorsNew m => m
  | .cliExit m _ => m

/-- Exit code carried by an error, present only for values built by `cli.Exit`. -/
def GoError.exitCode? : GoError → Option Int
  | .errorsNew _ => none
  | .cliExit _ code => some code

/-- The `io.Writer` selected as `out`. -/
inductive Sink where
  | stdout
  | file (path : String)
  deriving DecidableEq, Repr

/-- A `yaml.Node` configuration fragment. The type is declared outside the repository,
so only its identity matters here. -/
structure Node where
  raw : String
  deriving DecidableEq, Repr

/-- Contents held by the `jsonblob.Store`: the records accumulated so far. -/
abbrev StoreData := List String

/-- A Go `map[string]V`, as its entries in iteration order. Keys of a Go map are unique. -/
abbrev GoMap (α : Type) := List (String × α)

/-- Map read `m[k]`. -/
def GoMap.get {α : Type} (m : GoMap α) (k : String) : Option α :=
  List.lookup k m

/-- Map write `m[k] = v`. -/
def GoMap.set {α : Type} (m : GoMap α) (k : String) (v : α) : GoMap α :=
  (k, v) :: m.filter (fun e => e.1 != k)

/-- Key list of a map. -/
def GoMap.keys {α : Type} (m : GoMap α) : List String :=
  m.map Prod.fst

/-- The part of the loaded configuration that `exportAction` reads:
`cfg.Updaters.Config` and `cfg.Updaters.Sets`. -/
structure Config where
  updatersConfig : GoMap Node
  updatersSets : List String
  deriving DecidableEq, Repr

/-- A `driver.ConfigUnmarshaler`, `func(v interface{}) error`. The target behind the
pointer `v` is passed in and its value after the call is returned with the error. -/
abbrev ConfigUnmarshaler (τ : Type) := τ → τ × Option GoError

/-- The `cli.Context` as read by the action: positional arguments, the `strict` flag and
the `config` string. -/
structure Context where
  args : List String
  strict : Bool
  config : String

/-- Outcomes of the external calls made by `exportAction`. For calls returning only an
error, `none` is the `nil` of Go. -/
structure Env (τ : Type) where
  osCreate : String → Option GoError
  loadConfig : String → Except GoError Config
  jsonMarshal : Node → Except GoError String
  jsonUnmarshal : String → τ → τ × Option GoError
  httputilClient : Config → Option GoError
  jsonblobNew : Except GoError StoreData
  newManager : StoreData → GoMap (ConfigUnmarshaler τ) → List String → Option GoError
  mgrRun : GoMap (ConfigUnmarshaler τ) → List String → StoreData → StoreData × Option GoError
  storeStore : Sink → StoreData → String × Option GoError

/-! ## The decoder map (lines 64-74) -/

/-- The closure stored in `cfgs[name]`: marshal the captured `node`, return the
marshalling error if there is one, otherwise unmarshal the bytes into `v`. -/
def decoder {τ : Type} (jsonMarshal : Node → Except GoError String)
    (jsonUnmarshal : String → τ → τ × Option GoError) (node : Node) : ConfigUnmarshaler τ :=
  fun v =>
    match jsonMarshal node with
    | .error err => (v, some err)
    | .ok b => jsonUnmarshal b v

/-- The loop `for name, node := range cfg.Updaters.Config { cfgs[name] = ... }` starting
from the empty map. -/
def buildConfigs {τ : Type} (jsonMarshal : Node → Except GoError String)
    (jsonUnmarshal : String → τ → τ × Option GoError) (config : GoMap Node) :
    GoMap (ConfigUnmarshaler τ) :=
  config.foldl (fun cfgs e => cfgs.set e.1 (decoder jsonMarshal jsonUnmarshal e.2)) []

/-! ## Events, deferred calls and the frame of one invocation -/

/-- External calls, logged in program order. `write out bytes` records what a call of
`store.Store(out)` wrote to `out`. -/
inductive Event where
  | osCreate (path : String)
  | loadConfig (path : String)
  | httputilClient
  | jsonblobNew
  | newManager
  | mgrRun
  | storeStore (out : Sink) (data : StoreData)
  | write (out : Sink) (bytes : String)
  | stderrPrintln (msg : String)
  | fileClose (path : String)
  deriving DecidableEq, Repr

/-- The two `defer` statements of the action. -/
inductive Deferred where
  | fileClose (path : String)
  | storeStore (out : Sink)
  deriving DecidableEq, Repr

/-- State of one invocation: the log, the defer stack (most recent first) and the
contents of the store once it exists. -/
structure Frame where
  trace : List Event
  defers : List Deferred
  store : Option StoreData

/-- Append an event to the log. -/
def Frame.log (fr : Frame) (e : Event) : Frame :=
  ⟨fr.trace ++ [e], fr.defers, fr.store⟩

/-- Register a deferred call. -/
def Frame.pushDefer (fr : Frame) (d : Deferred) : Frame :=
  ⟨fr.trace, d :: fr.defers, fr.store⟩

/-- Update the contents of the store. -/
def Frame.setStore (fr : Frame) (s : StoreData) : Frame :=
  ⟨fr.trace, fr.defers, some s⟩

/-! ## exportAction -/

/-- Lines 59-108: everything after the output sink has been selected. Returns the frame
at the `return` statement and the returned error (`none` is nil). -/
def exportFrom {τ : Type} (env : Env τ) (c : Context) (fr : Frame) (out : Sink) :
    Frame × Option GoError :=
  let fr := fr.log (.loadConfig c.config)
  match env.loadConfig c.config with
  | .error err => (fr, some err)
  | .ok cfg =>
    let cfgs := buildConfigs env.jsonMarshal env.jsonUnmarshal cfg.updatersConfig
    let fr := fr.log .httputilClient
    match env.httputilClient cfg with
    | some err => (fr, some err)
    | none =>
      let fr := fr.log .jsonblobNew
      match env.jsonblobNew with
      | .error err => (fr, some err)
      | .ok store =>
        let fr := (fr.setStore store).pushDefer (.storeStore out)
        let fr := fr.log .newManager
        match env.newManager store cfgs cfg.updatersSets with
        | some err => (fr, some err)
        | none =>
          let fr := fr.log .mgrRun
          let r := env.mgrRun cfgs cfg.updatersSets store
          let fr := fr.setStore r.1
          match r.2 with
          | some err => (fr, some (.cliExit err.Error (if c.strict then 1 else 0)))
          | none => (fr, none)

/-- Lines 39-108 up to the `return` statement: select the sink by the number of
arguments, then run `exportFrom`. -/
def exportBody {τ : Type} (env : Env τ) (c : Context) : Frame × Option GoError :=
  match c.args.length with
  | 0 => exportFrom env c ⟨[], [], none⟩ .stdout
  | 1 =>
    let path := c.args.headD ""
    match env.osCreate path with
    | some err => (⟨[.osCreate path], [], none⟩, some err)
    | none => exportFrom env c ⟨[.osCreate path], [.fileClose path], none⟩ (.file path)
  | _ => (⟨[], [], none⟩, some (.errorsNew "too many arguments (wanted at most one)"))

/-- Events of one deferred call. The deferred closure calls `store.Store(out)` and prints
a returned error on standard error; the deferred `f.Close()` closes the file. -/
def runDeferredCall {τ : Type} (env : Env τ) (store : Option StoreData) : Deferred → List Event
  | .fileClose path => [.fileClose path]
  | .storeStore out =>
    match store with
    | none => []
    | some data =>
      let r := env.storeStore out data
      match r.2 with
      | some err => [.storeStore out data, .write out r.1, .stderrPrintln err.Error]
      | none => [.storeStore out data, .write out r.1]

/-- Unwind the defer stack, most recently registered call first. -/
def runDeferred {τ : Type} (env : Env τ) (store : Option StoreData) : List Deferred → List Event
  | [] => []
  | d :: ds => runDeferredCall env store d ++ runDeferred env store ds

/-- Observable result of one invocation. -/
structure Outcome where
  trace : List Event
  result : Option GoError
  deriving DecidableEq, Repr

/-- The action: run the body, then the deferred calls; the returned error is the one
fixed by the `return` statement. -/
def exportAction {τ : Type} (env : Env τ) (c : Context) : Outcome :=
  let r := exportBody env c
  ⟨r.1.trace ++ runDeferred env r.1.store r.1.defers, r.2⟩

/-- Bytes written to `out` during a trace, in order. -/
def bytesWritten (out : Sink) : List Event → String
  | [] => ""
  | .write o b :: es => if o = out then b ++ bytesWritten out es else bytesWritten out es
  | _ :: es => bytesWritten out es

/-- Is the event a call of `store.Store`? -/
def Event.isStoreStore : Event → Bool
  | .storeStore _ _ => true
  | _ => false

/-- Is the event a write to a sink? -/
def Event.isWrite : Event → Bool
  | .write _ _ => true
  | _ => false

/-- Is the event a call of `f.Close()`? -/
def Event.isFileClose : Event → Bool
  | .fileClose _ => true
  | _ => false

/-- Is the event the call of `mgr.Run`? -/
def Event.isMgrRun : Event → Bool
  | .mgrRun => true
  | _ => false

/-- Is the event a call of `os.Create`? -/
def Event.isOsCreate : Event → Bool
  | .osCreate _ => true
  | _ => false

/-- Sink an event writes to, for the events that serialize the store. -/
def Event.sink? : Event → Option Sink
  | .storeStore out _ => some out
  | .write out _ => some out
  | _ => none

/-! ## Vocabulary for stating the properties -/

/-- Sink selected for an invocation with at most one argument. -/
def selectedSink (c : Context) : Sink :=
  if c.args.length = 0 then .stdout else .file (c.args.headD "")

/-- Events logged while the sink is opened. -/
def openEvents (c : Context) : List Event :=
  if c.args.length = 0 then [] else [.osCreate (c.args.headD "")]

/-- Events logged when the sink is released. -/
def closeEvents (c : Context) : List Event :=
  if c.args.length = 0 then [] else [.fileClose (c.args.headD "")]

/-- Deferred calls registered while the sink is opened. -/
def closeDefers (c : Context) : List Deferred :=
  if c.args.length = 0 then [] else [.fileClose (c.args.headD "")]

/-- Events of the deferred `store.Store(out)` for store contents `data`. -/
def storeEvents {τ : Type} (env : Env τ) (out : Sink) (data : StoreData) : List Event :=
  runDeferredCall env (some data) (.storeStore out)

/-- The sink was opened: at most one argument, and with one argument `os.Create`
succeeded. -/
def SinkOpened {τ : Type} (env : Env τ) (c : Context) : Prop :=
  c.args.length ≤ 1 ∧ (c.args.length = 1 → env.osCreate (c.args.headD "") = none)

/-- The decoder map built for a configuration. -/
def configsOf {τ : Type} (env : Env τ) (cfg : Config) : GoMap (ConfigUnmarshaler τ) :=
  buildConfigs env.jsonMarshal env.jsonUnmarshal cfg.updatersConfig

/-- The store was created with contents `store`: the sink was opened, the configuration
loaded as `cfg`, and the HTTP client built. -/
def StoreCreated {τ : Type} (env : Env τ) (c : Context) (cfg : Config) (store : StoreData) :
    Prop :=
  SinkOpened env c ∧ env.loadConfig c.config = .ok cfg ∧ env.httputilClient cfg = none ∧
    env.jsonblobNew = .ok store

/-- Setup succeeded: the store was created and `updates.NewManager` returned no error. -/
def SetupOk {τ : Type} (env : Env τ) (c : Context) (cfg : Config) (store : StoreData) : Prop :=
  StoreCreated env c cfg store ∧ env.newManager store (configsOf env cfg) cfg.updatersSets = none

/-- Construction of the Manager failed with `err`, every earlier step having succeeded. -/
def ManagerFails {τ : Type} (env : Env τ) (c : Context) (cfg : Config) (store : StoreData)
    (err : GoError) : Prop :=
  StoreCreated env c cfg store ∧
    env.newManager store (configsOf env cfg) cfg.updatersSets = some err

/-- A setup step after the opening of the sink was reached and failed with `err`:
loading the configuration, building the HTTP client, creating the store or constructing
the Manager. -/
def SetupFails {τ : Type} (env : Env τ) (c : Context) (err : GoError) : Prop :=
  SinkOpened env c ∧
    (env.loadConfig c.config = .error err ∨
      ∃ cfg, env.loadConfig c.config = .ok cfg ∧
        (env.httputilClient cfg = some err ∨
          (env.httputilClient cfg = none ∧
            (env.jsonblobNew = .error err ∨
              ∃ store, env.jsonblobNew = .ok store ∧
                env.newManager store (configsOf env cfg) cfg.updatersSets = some err))))

/-- Result and store contents of `mgr.Run` for a configuration and a fresh store. -/
def runOf {τ : Type} (env : Env τ) (cfg : Config) (store : StoreData) :
    StoreData × Option GoError :=
  env.mgrRun (configsOf env cfg) cfg.updatersSets store

/-- The same environment with another behaviour of `store.Store`. -/
def Env.withStoreStore {τ : Type} (env : Env τ)
    (s : Sink → StoreData → String × Option GoError) : Env τ :=
  ⟨env.osCreate, env.loadConfig, env.jsonMarshal, env.jsonUnmarshal, env.httputilClient,
    env.jsonblobNew, env.newManager, env.mgrRun, s⟩

/-- The same environment with another result of `updates.NewManager`. -/
def Env.withNewManager {τ : Type} (env : Env τ) (r : Option GoError) : Env τ :=
  ⟨env.osCreate, env.loadConfig, env.jsonMarshal, env.jsonUnmarshal, env.httputilClient,
    env.jsonblobNew, fun _ _ _ => r, env.mgrRun, env.storeStore⟩

/-- The same environment with another behaviour of `mgr.Run`. -/
def Env.withMgrRun {τ : Type} (env : Env τ)
    (r : GoMap (ConfigUnmarshaler τ) → List String → StoreData → StoreData × Option GoError) :
    Env τ :=
  ⟨env.osCreate, env.loadConfig, env.jsonMarshal, env.jsonUnmarshal, env.httputilClient,
    env.jsonblobNew, env.newManager, r, env.storeStore⟩

/-- The same environment with another behaviour of `loadConfig`. -/
def Env.withLoadConfig {τ : Type} (env : Env τ) (r : String → Except GoError Config) : Env τ :=
  ⟨env.osCreate, r, env.jsonMarshal, env.jsonUnmarshal, env.httputilClient,
    env.jsonblobNew, env.newManager, env.mgrRun, env.storeStore⟩

/-- The same context with another value of the `strict` flag. -/
def Context.withStrict (c : Context) (strict : Bool) : Context :=
  ⟨c.args, strict, c.config⟩

/-! ## Sample environments -/

/-- An environment in which every call succeeds; the run adds one record. -/
def envOk : Env Nat where
  osCreate := fun _ => none
  loadConfig := fun _ => .ok ⟨[("rhel", ⟨"a"⟩), ("alpine", ⟨"b"⟩)], ["rhel"]⟩
  jsonMarshal := fun n => .ok n.raw
  jsonUnmarshal := fun b _ => (b.length, none)
  httputilClient := fun _ => none
  jsonblobNew := .ok []
  newManager := fun _ _ _ => none
  mgrRun := fun _ _ s => (s ++ ["rec"], none)
  storeStore := fun _ s => (String.join s, none)

/-- Configuration returned by `envOk.loadConfig`. -/
def cfgOk : Config :=
  ⟨[("rhel", ⟨"a"⟩), ("alpine", ⟨"b"⟩)], ["rhel"]⟩

/-- An invocation writing to the file `out.json`, with `strict` set. -/
def ctxFile : Context :=
  ⟨["out.json"], true, "cfg"⟩

/-- An invocation writing to standard output, without `strict`. -/
def ctxStdout : Context :=
  ⟨[], false, "cfg"⟩

/-- An environment in which one updater fails: the run adds a record and reports an
error. -/
def envRunFails : Env Nat :=
  envOk.withMgrRun (fun _ _ s => (s ++ ["rec"], some (.errorsNew "beta: network error")))

/-- An environment in which `updates.NewManager` fails. -/
def envManagerFails : Env Nat :=
  envOk.withNewManager (some (.errorsNew "invalid store"))

/-- An environment in which the configuration cannot be loaded. -/
def envConfigFails : Env Nat :=
  envOk.withLoadConfig (fun _ => .error (.errorsNew "no such file"))

/-- An invocation with two positional arguments. -/
def ctxTwoArgs : Context :=
  ⟨["a.json", "b.json"], false, "cfg"⟩

/-- An environment in which `store.Store` fails after writing nothing. -/
def envStoreFails : Env Nat :=
  envOk.withStoreStore (fun _ _ => ("", some (.errorsNew "short write")))

/-! ## Shape of an invocation -/

/-- Outcome of `exportFrom` when setup succeeds. -/
theorem exportFrom_of_setup {τ : Type} (env : Env τ) (c : Context) (fr : Frame) (out : Sink)
    (cfg : Config) (store : StoreData)
    (hcfg : env.loadConfig c.config = .ok cfg) (hcl : env.httputilClient cfg = none)
    (hst : env.jsonblobNew = .ok store)
    (hmgr : env.newManager store (configsOf env cfg) cfg.updatersSets = none) :
    exportFrom env c fr out =
      (⟨fr.trace ++ [.loadConfig c.config, .httputilClient, .jsonblobNew, .newManager, .mgrRun],
          .storeStore out :: fr.defers, some (runOf env cfg store).1⟩,
        (runOf env cfg store).2.map
          (fun err => GoError.cliExit err.Error (if c.strict then 1 else 0))) := by
  unfold configsOf at hmgr
  simp only [exportFrom, hcfg, hcl, hst, hmgr, runOf, configsOf, Frame.log, Frame.pushDefer,
    Frame.setStore, List.append_assoc, List.singleton_append]
  cases h : (env.mgrRun (buildConfigs env.jsonMarshal env.jsonUnmarshal cfg.updatersConfig)
    cfg.updatersSets store).2 <;> simp

/-- Outcome of `exportFrom` when construction of the Manager fails. -/
theorem exportFrom_of_managerFails {τ : Type} (env : Env τ) (c : Context) (fr : Frame)
    (out : Sink) (cfg : Config) (store : StoreData) (err : GoError)
    (hcfg : env.loadConfig c.config = .ok cfg) (hcl : env.httputilClient cfg = none)
    (hst : env.jsonblobNew = .ok store)
    (hmgr : env.newManager store (configsOf env cfg) cfg.updatersSets = some err) :
    exportFrom env c fr out =
      (⟨fr.trace ++ [.loadConfig c.config, .httputilClient, .jsonblobNew, .newManager],
          .storeStore out :: fr.defers, some store⟩, some err) := by
  unfold configsOf at hmgr
  simp [exportFrom, hcfg, hcl, hst, hmgr, Frame.log, Frame.pushDefer, Frame.setStore]

/-- Body of the action once the sink has been opened. -/
theorem exportBody_of_sinkOpened {τ : Type} (env : Env τ) (c : Context)
    (h : SinkOpened env c) :
    exportBody env c = exportFrom env c ⟨openEvents c, closeDefers c, none⟩ (selectedSink c) := by
  obtain ⟨hlen, hcreate⟩ := h
  rcases c with ⟨args, strict, config⟩
  match args, hlen, hcreate with
  | [], _, _ => simp [exportBody, openEvents, closeDefers, selectedSink]
  | [p], _, hcreate =>
    have hp : env.osCreate p = none := by simpa using hcreate
    simp [exportBody, openEvents, closeDefers, selectedSink, hp]

/-- Unwinding the deferred calls of the sink logs its release. -/
theorem runDeferred_closeDefers {τ : Type} (env : Env τ) (store : Option StoreData)
    (c : Context) : runDeferred env store (closeDefers c) = closeEvents c := by
  unfold closeDefers closeEvents
  split <;> simp [runDeferred, runDeferredCall]

/-- The whole invocation when setup succeeds. -/
theorem exportAction_of_setupOk {τ : Type} (env : Env τ) (c : Context) (cfg : Config)
    (store : StoreData) (h : SetupOk env c cfg store) :
    exportAction env c =
      ⟨openEvents c ++ [.loadConfig c.config, .httputilClient, .jsonblobNew, .newManager, .mgrRun]
          ++ storeEvents env (selectedSink c) (runOf env cfg store).1 ++ closeEvents c,
        (runOf env cfg store).2.map
          (fun err => GoError.cliExit err.Error (if c.strict then 1 else 0))⟩ := by
  obtain ⟨⟨hsink, hcfg, hcl, hst⟩, hmgr⟩ := h
  simp [exportAction, exportBody_of_sinkOpened env c hsink,
    exportFrom_of_setup env c _ _ cfg store hcfg hcl hst hmgr, runDeferred,
    runDeferred_closeDefers, storeEvents]

/-- The whole invocation when construction of the Manager fails. -/
theorem exportAction_of_managerFails {τ : Type} (env : Env τ) (c : Context) (cfg : Config)
    (store : StoreData) (err : GoError) (h : ManagerFails env c cfg store err) :
    exportAction env c =
      ⟨openEvents c ++ [.loadConfig c.config, .httputilClient, .jsonblobNew, .newManager]
          ++ storeEvents env (selectedSink c) store ++ closeEvents c, some err⟩ := by
  obtain ⟨⟨hsink, hcfg, hcl, hst⟩, hmgr⟩ := h
  simp [exportAction, exportBody_of_sinkOpened env c hsink,
    exportFrom_of_managerFails env c _ _ cfg store err hcfg hcl hst hmgr, runDeferred,
    runDeferred_closeDefers, storeEvents]

/-- Events of a deferred `store.Store(out)`: the call, what it wrote, and the error on
standard error if there is one. -/
theorem storeEvents_eq {τ : Type} (env : Env τ) (out : Sink) (data : StoreData) :
    storeEvents env out data =
      [.storeStore out data, .write out (env.storeStore out data).1] ++
        (match (env.storeStore out data).2 with
          | some err => [.stderrPrintln err.Error]
          | none => []) := by
  unfold storeEvents runDeferredCall
  cases h : (env.storeStore out data).2 <;> simp [h]

/-- The whole invocation when a step before the creation of the Manager fails. -/
theorem exportAction_of_early_failure {τ : Type} (env : Env τ) (c : Context) (err : GoError)
    (hsink : SinkOpened env c)
    (h : env.loadConfig c.config = .error err ∨
      ∃ cfg, env.loadConfig c.config = .ok cfg ∧
        (env.httputilClient cfg = some err ∨
          (env.httputilClient cfg = none ∧ env.jsonblobNew = .error err))) :
    ∃ mid, mid <+: [Event.loadConfig c.config, .httputilClient, .jsonblobNew] ∧
      exportAction env c = ⟨openEvents c ++ mid ++ closeEvents c, some err⟩ := by
  rcases h with h | ⟨cfg, hcfg, h | ⟨hcl, hst⟩⟩
  · refine ⟨[.loadConfig c.config], by simp [List.prefix_iff_eq_take], ?_⟩
    simp [exportAction, exportBody_of_sinkOpened env c hsink, exportFrom, h, Frame.log,
      runDeferred_closeDefers]
  · refine ⟨[.loadConfig c.config, .httputilClient], by simp [List.prefix_iff_eq_take], ?_⟩
    simp [exportAction, exportBody_of_sinkOpened env c hsink, exportFrom, hcfg, h, Frame.log,
      runDeferred_closeDefers]
  · refine ⟨[.loadConfig c.config, .httputilClient, .jsonblobNew], by simp, ?_⟩
    simp [exportAction, exportBody_of_sinkOpened env c hsink, exportFrom, hcfg, hcl, hst,
      Frame.log, runDeferred_closeDefers]

/-- Every invocation follows one of five courses. -/
theorem exportAction_cases {τ : Type} (env : Env τ) (c : Context) :
    (2 ≤ c.args.length ∧
      exportAction env c = ⟨[], some (.errorsNew "too many arguments (wanted at most one)")⟩) ∨
    (c.args.length = 1 ∧ ∃ err, env.osCreate (c.args.headD "") = some err ∧
      exportAction env c = ⟨[.osCreate (c.args.headD "")], some err⟩) ∨
    (SinkOpened env c ∧ ∃ err mid,
      mid <+: [Event.loadConfig c.config, .httputilClient, .jsonblobNew] ∧
      exportAction env c = ⟨openEvents c ++ mid ++ closeEvents c, some err⟩) ∨
    (∃ cfg store err, ManagerFails env c cfg store err) ∨
    (∃ cfg store, SetupOk env c cfg store) := by
  by_cases h2 : 2 ≤ c.args.length
  · left
    refine ⟨h2, ?_⟩
    rcases c with ⟨args, strict, config⟩
    match args, h2 with
    | _ :: _ :: _, _ => simp [exportAction, exportBody, runDeferred]
  right
  by_cases h1 : c.args.length = 1 ∧ env.osCreate (c.args.headD "") ≠ none
  · left
    obtain ⟨hlen, hne⟩ := h1
    obtain ⟨err, herr⟩ : ∃ err, env.osCreate (c.args.headD "") = some err := by
      cases hc : env.osCreate (c.args.headD "") with
      | none => exact absurd hc hne
      | some err => exact ⟨err, rfl⟩
    refine ⟨hlen, err, herr, ?_⟩
    rcases c with ⟨args, strict, config⟩
    match args, hlen, herr with
    | [p], _, herr =>
      have hp : env.osCreate p = some err := by simpa using herr
      simp [exportAction, exportBody, hp, runDeferred]
  right
  have hsink : SinkOpened env c := by
    refine ⟨by omega, fun hlen => ?_⟩
    by_contra hne
    exact h1 ⟨hlen, hne⟩
  cases hcfg : env.loadConfig c.config with
  | error err =>
    exact .inl ⟨hsink, err, exportAction_of_early_failure env c err hsink (.inl hcfg)⟩
  | ok cfg =>
    cases hcl : env.httputilClient cfg with
    | some err =>
      exact .inl ⟨hsink, err,
        exportAction_of_early_failure env c err hsink (.inr ⟨cfg, hcfg, .inl hcl⟩)⟩
    | none =>
      cases hst : env.jsonblobNew with
      | error err =>
        exact .inl ⟨hsink, err,
          exportAction_of_early_failure env c err hsink (.inr ⟨cfg, hcfg, .inr ⟨hcl, hst⟩⟩)⟩
      | ok store =>
        right
        cases hmgr : env.newManager store (configsOf env cfg) cfg.updatersSets with
        | some err => exact .inl ⟨cfg, store, err, ⟨hsink, hcfg, hcl, hst⟩, hmgr⟩
        | none => exact .inr ⟨cfg, store, ⟨hsink, hcfg, hcl, hst⟩, hmgr⟩

/-- Setup succeeds in `envRunFails` for the invocation `ctxFile`. -/
theorem setupOk_envRunFails : SetupOk envRunFails ctxFile cfgOk [] :=
  ⟨⟨⟨by decide, fun _ => rfl⟩, rfl, rfl, rfl⟩, rfl⟩

/-- C1: when setup succeeds, a nil result of `mgr.Run` makes `exportAction` return nil, and
an error `e` of `mgr.Run` makes it return `cli.Exit(e.Error(), code)` with code 1 under
`strict` and 0 otherwise; so the returned exit code is non-zero exactly when `strict` is
set and the run reported an error. -/
theorem exportAction_exit_policy {τ : Type} (env : Env τ) (c : Context) (cfg : Config)
    (store : StoreData) (h : SetupOk env c cfg store) :
    ((runOf env cfg store).2 = none → (exportAction env c).result = none) ∧
    (∀ e, (runOf env cfg store).2 = some e →
      (exportAction env c).result = some (.cliExit e.Error (if c.strict then 1 else 0))) ∧
    ((∃ err code, (exportAction env c).result = some err ∧ err.exitCode? = some code ∧
        code ≠ 0) ↔ (c.strict = true ∧ (runOf env cfg store).2 ≠ none)) := by
  rw [exportAction_of_setupOk env c cfg store h]
  cases hrun : (runOf env cfg store).2 with
  | none => simp
  | some e =>
    cases hs : c.strict <;> simp [GoError.exitCode?]

/-- Witness for C1: a failing run under `strict` returns exit code 1. -/
theorem exportAction_exit_policy_witness :
    SetupOk envRunFails ctxFile cfgOk [] ∧
      (exportAction envRunFails ctxFile).result =
        some (.cliExit "beta: network error" 1) :=
  ⟨setupOk_envRunFails,
    (exportAction_exit_policy envRunFails ctxFile cfgOk [] setupOk_envRunFails).2.1
      (.errorsNew "beta: network error") rfl⟩

/-- C2: when the store and the Manager are constructed, the trace holds the call of
`mgr.Run` immediately followed by one call of `store.Store` on the selected sink, with the
contents the store has after the run and the bytes that call writes; no other event of the
trace is a call of `mgr.Run`, a call of `store.Store` or a write. This holds for every
result of `mgr.Run`. -/
theorem exportAction_serializes_once_after_run {τ : Type} (env : Env τ) (c : Context)
    (cfg : Config) (store : StoreData) (h : SetupOk env c cfg store) :
    ∃ pre post, (exportAction env c).trace =
        pre ++ [.mgrRun, .storeStore (selectedSink c) (runOf env cfg store).1,
          .write (selectedSink c) (env.storeStore (selectedSink c) (runOf env cfg store).1).1]
          ++ post ∧
      ∀ e ∈ pre ++ post, e.isMgrRun = false ∧ e.isStoreStore = false ∧ e.isWrite = false := by
  rw [exportAction_of_setupOk env c cfg store h, storeEvents_eq]
  refine ⟨openEvents c ++ [.loadConfig c.config, .httputilClient, .jsonblobNew, .newManager],
    (match (env.storeStore (selectedSink c) (runOf env cfg store).1).2 with
      | some err => [.stderrPrintln err.Error]
      | none => []) ++ closeEvents c, by simp, ?_⟩
  intro e he
  simp only [List.mem_append, openEvents, closeEvents] at he
  rcases he with (he | he) | he | he
  · split at he <;> simp at he
    subst he; simp [Event.isMgrRun, Event.isStoreStore, Event.isWrite]
  · simp at he
    rcases he with rfl | rfl | rfl | rfl <;> simp [Event.isMgrRun, Event.isStoreStore, Event.isWrite]
  · split at he <;> simp at he
    subst he; simp [Event.isMgrRun, Event.isStoreStore, Event.isWrite]
  · split at he <;> simp at he
    subst he; simp [Event.isMgrRun, Event.isStoreStore, Event.isWrite]

/-- Witness for C2: a failing run is followed by the serialization of what it stored. -/
theorem exportAction_serializes_once_after_run_witness :
    SetupOk envRunFails ctxFile cfgOk [] ∧
      ∃ pre post, (exportAction envRunFails ctxFile).trace =
        pre ++ [.mgrRun, .storeStore (.file "out.json") ["rec"],
          .write (.file "out.json") "rec"] ++ post ∧
      ∀ e ∈ pre ++ post, e.isMgrRun = false ∧ e.isStoreStore = false ∧ e.isWrite = false :=
  ⟨setupOk_envRunFails,
    exportAction_serializes_once_after_run envRunFails ctxFile cfgOk [] setupOk_envRunFails⟩

/-- The `strict` flag changes neither the frame left by `exportFrom` nor, exit code apart,
its result. -/
theorem exportFrom_strict {τ : Type} (env : Env τ) (args : List String) (config : String)
    (fr : Frame) (out : Sink) :
    (exportFrom env ⟨args, true, config⟩ fr out).1 =
      (exportFrom env ⟨args, false, config⟩ fr out).1 ∧
    ((exportFrom env ⟨args, true, config⟩ fr out).2 =
        (exportFrom env ⟨args, false, config⟩ fr out).2 ∨
      ∃ msg, (exportFrom env ⟨args, true, config⟩ fr out).2 = some (.cliExit msg 1) ∧
        (exportFrom env ⟨args, false, config⟩ fr out).2 = some (.cliExit msg 0)) := by
  cases hcfg : env.loadConfig config with
  | error err => simp [exportFrom, hcfg]
  | ok cfg =>
    cases hcl : env.httputilClient cfg with
    | some err => simp [exportFrom, hcfg, hcl]
    | none =>
      cases hst : env.jsonblobNew with
      | error err => simp [exportFrom, hcfg, hcl, hst]
      | ok store =>
        cases hmgr : env.newManager store
            (buildConfigs env.jsonMarshal env.jsonUnmarshal cfg.updatersConfig)
            cfg.updatersSets with
        | some err => simp [exportFrom, hcfg, hcl, hst, hmgr]
        | none =>
          cases hrun : (env.mgrRun
            (buildConfigs env.jsonMarshal env.jsonUnmarshal cfg.updatersConfig)
            cfg.updatersSets store).2 with
          | some err => simp [exportFrom, hcfg, hcl, hst, hmgr, hrun]
          | none => simp [exportFrom, hcfg, hcl, hst, hmgr, hrun]

/-- The `strict` flag changes neither the frame left by the body nor, exit code apart,
its result. -/
theorem exportBody_strict {τ : Type} (env : Env τ) (c : Context) :
    (exportBody env (c.withStrict true)).1 = (exportBody env (c.withStrict false)).1 ∧
    ((exportBody env (c.withStrict true)).2 = (exportBody env (c.withStrict false)).2 ∨
      ∃ msg, (exportBody env (c.withStrict true)).2 = some (.cliExit msg 1) ∧
        (exportBody env (c.withStrict false)).2 = some (.cliExit msg 0)) := by
  rcases c with ⟨args, strict, config⟩
  match args with
  | [] => simpa [exportBody, Context.withStrict] using exportFrom_strict env [] config _ _
  | [p] =>
    cases hp : env.osCreate p with
    | some err => simp [exportBody, Context.withStrict, hp]
    | none => simpa [exportBody, Context.withStrict, hp] using exportFrom_strict env [p] config _ _
  | _ :: _ :: _ => simp [exportBody, Context.withStrict]

/-- C3: two invocations that differ only in the `strict` flag have the same trace of
external calls and write the same bytes to every sink; their results are equal, or are
`cli.Exit` values with the same message and the exit codes 1 (strict) and 0 (not strict). -/
theorem exportAction_strict_changes_only_exit_code {τ : Type} (env : Env τ) (c : Context) :
    (exportAction env (c.withStrict true)).trace =
      (exportAction env (c.withStrict false)).trace ∧
    (∀ out, bytesWritten out (exportAction env (c.withStrict true)).trace =
      bytesWritten out (exportAction env (c.withStrict false)).trace) ∧
    ((exportAction env (c.withStrict true)).result =
        (exportAction env (c.withStrict false)).result ∨
      ∃ msg, (exportAction env (c.withStrict true)).result = some (.cliExit msg 1) ∧
        (exportAction env (c.withStrict false)).result = some (.cliExit msg 0)) := by
  have key := exportBody_strict env c
  have htrace : (exportAction env (c.withStrict true)).trace =
      (exportAction env (c.withStrict false)).trace := by
    simp only [exportAction, key.1]
  exact ⟨htrace, fun out => by rw [htrace], key.2⟩

/-- Once the sink is opened, the trace is the opening of the sink, then events that neither
create nor close a file and that serialize to the selected sink only, then the release of
the sink. -/
theorem exportAction_trace_of_sinkOpened {τ : Type} (env : Env τ) (c : Context)
    (hsink : SinkOpened env c) :
    ∃ mid, (exportAction env c).trace = openEvents c ++ mid ++ closeEvents c ∧
      ∀ e ∈ mid, e.isOsCreate = false ∧ e.isFileClose = false ∧
        ∀ o, e.sink? = some o → o = selectedSink c := by
  rcases exportAction_cases env c with
    ⟨h2, _⟩ | ⟨h1, err, hc, _⟩ | ⟨_, err, mid, hmid, ht⟩ | ⟨cfg, store, err, hm⟩ |
      ⟨cfg, store, hok⟩
  · have := hsink.1; omega
  · rw [hsink.2 h1] at hc; cases hc
  · refine ⟨mid, by rw [ht], ?_⟩
    intro e he
    have he2 := hmid.subset he
    simp at he2
    rcases he2 with rfl | rfl | rfl <;> simp [Event.isOsCreate, Event.isFileClose, Event.sink?]
  · rw [exportAction_of_managerFails _ _ _ _ _ hm, storeEvents_eq]
    refine ⟨[.loadConfig c.config, .httputilClient, .jsonblobNew, .newManager] ++
      ([.storeStore (selectedSink c) store,
        .write (selectedSink c) (env.storeStore (selectedSink c) store).1] ++
        match (env.storeStore (selectedSink c) store).2 with
        | some err => [.stderrPrintln err.Error]
        | none => []), by simp, ?_⟩
    intro e he
    simp only [List.mem_append, List.mem_cons, List.mem_singleton, List.not_mem_nil,
      or_false] at he
    rcases he with (rfl | rfl | rfl | rfl) | (rfl | rfl) | he
    all_goals try simp [Event.isOsCreate, Event.isFileClose, Event.sink?]
    split at he <;> simp at he
    subst he; simp [Event.isOsCreate, Event.isFileClose, Event.sink?]
  · rw [exportAction_of_setupOk _ _ _ _ hok, storeEvents_eq]
    refine ⟨[.loadConfig c.config, .httputilClient, .jsonblobNew, .newManager, .mgrRun] ++
      ([.storeStore (selectedSink c) (runOf env cfg store).1,
        .write (selectedSink c) (env.storeStore (selectedSink c) (runOf env cfg store).1).1] ++
        match (env.storeStore (selectedSink c) (runOf env cfg store).1).2 with
        | some err => [.stderrPrintln err.Error]
        | none => []), by simp, ?_⟩
    intro e he
    simp only [List.mem_append, List.mem_cons, List.mem_singleton, List.not_mem_nil,
      or_false] at he
    rcases he with (rfl | rfl | rfl | rfl | rfl) | (rfl | rfl) | he
    all_goals try simp [Event.isOsCreate, Event.isFileClose, Event.sink?]
    split at he <;> simp at he
    subst he; simp [Event.isOsCreate, Event.isFileClose, Event.sink?]

/-- Construction of the Manager fails in `envManagerFails` for the invocation `ctxFile`. -/
theorem managerFails_envManagerFails :
    ManagerFails envManagerFails ctxFile cfgOk [] (.errorsNew "invalid store") :=
  ⟨⟨⟨by decide, fun _ => rfl⟩, rfl, rfl, rfl⟩, rfl⟩

/-- C4, as stated, fails: in `envManagerFails` construction of the Manager fails, yet the
trace of the invocation holds a call of `store.Store` on the output file. -/
theorem exportAction_manager_failure_still_exports :
    ManagerFails envManagerFails ctxFile cfgOk [] (.errorsNew "invalid store") ∧
      ¬ (∀ e ∈ (exportAction envManagerFails ctxFile).trace, e.isStoreStore = false) := by
  refine ⟨managerFails_envManagerFails, ?_⟩
  intro h
  have := h (.storeStore (.file "out.json") []) (by decide)
  simp [Event.isStoreStore] at this

/-- C4, amended: when construction of the Manager fails with `err`, `exportAction` returns
`err` unchanged and never calls `mgr.Run`, and the deferred `store.Store` still runs:
the trace holds, right after the call of `updates.NewManager`, one call of `store.Store` on
the selected sink with the contents the store was created with and the bytes that call
writes, and no other call of `store.Store` or write. -/
theorem exportAction_manager_failure {τ : Type} (env : Env τ) (c : Context) (cfg : Config)
    (store : StoreData) (err : GoError) (h : ManagerFails env c cfg store err) :
    (exportAction env c).result = some err ∧
    (∀ e ∈ (exportAction env c).trace, e.isMgrRun = false) ∧
    ∃ pre post, (exportAction env c).trace =
        pre ++ [.newManager, .storeStore (selectedSink c) store,
          .write (selectedSink c) (env.storeStore (selectedSink c) store).1] ++ post ∧
      ∀ e ∈ pre ++ post, e.isStoreStore = false ∧ e.isWrite = false := by
  rw [exportAction_of_managerFails env c cfg store err h, storeEvents_eq]
  refine ⟨rfl, ?_, openEvents c ++ [.loadConfig c.config, .httputilClient, .jsonblobNew],
    (match (env.storeStore (selectedSink c) store).2 with
      | some err => [.stderrPrintln err.Error]
      | none => []) ++ closeEvents c, by simp, ?_⟩
  · intro e he
    simp only [List.mem_append, openEvents, closeEvents] at he
    rcases he with ((he | he) | he | he) | he
    · split at he <;> simp at he
      subst he; rfl
    · simp at he
      rcases he with rfl | rfl | rfl | rfl <;> rfl
    · simp at he
      rcases he with rfl | rfl <;> rfl
    · split at he <;> simp at he
      subst he; rfl
    · split at he <;> simp at he
      subst he; rfl
  · intro e he
    simp only [List.mem_append, openEvents, closeEvents] at he
    rcases he with (he | he) | he | he
    · split at he <;> simp at he
      subst he; simp [Event.isStoreStore, Event.isWrite]
    · simp at he
      rcases he with rfl | rfl | rfl <;> simp [Event.isStoreStore, Event.isWrite]
    · split at he <;> simp at he
      subst he; simp [Event.isStoreStore, Event.isWrite]
    · split at he <;> simp at he
      subst he; simp [Event.isStoreStore, Event.isWrite]

/-- Witness for C4 amended: the failure is returned and the empty store is serialized. -/
theorem exportAction_manager_failure_witness :
    ManagerFails envManagerFails ctxFile cfgOk [] (.errorsNew "invalid store") ∧
      (exportAction envManagerFails ctxFile).result = some (.errorsNew "invalid store") ∧
      (∀ e ∈ (exportAction envManagerFails ctxFile).trace, e.isMgrRun = false) ∧
      ∃ pre post, (exportAction envManagerFails ctxFile).trace =
          pre ++ [.newManager, .storeStore (.file "out.json") [],
            .write (.file "out.json") ""] ++ post ∧
        ∀ e ∈ pre ++ post, e.isStoreStore = false ∧ e.isWrite = false :=
  ⟨managerFails_envManagerFails,
    exportAction_manager_failure envManagerFails ctxFile cfgOk []
      (.errorsNew "invalid store") managerFails_envManagerFails⟩

/-- C5: when a setup step (loading the configuration, building the HTTP client, creating
the store, constructing the Manager) fails with `err`, `exportAction` returns exactly `err`
and the trace holds no call of `mgr.Run`. -/
theorem exportAction_setup_failure {τ : Type} (env : Env τ) (c : Context) (err : GoError)
    (h : SetupFails env c err) :
    (exportAction env c).result = some err ∧
      ∀ e ∈ (exportAction env c).trace, e.isMgrRun = false := by
  obtain ⟨hsink, h⟩ := h
  have early : ∀ mid, mid <+: [Event.loadConfig c.config, .httputilClient, .jsonblobNew] →
      ∀ e ∈ openEvents c ++ mid ++ closeEvents c, e.isMgrRun = false := by
    intro mid hmid e he
    simp only [List.mem_append, openEvents, closeEvents] at he
    rcases he with (he | he) | he
    · split at he <;> simp at he
      subst he; rfl
    · have he2 := hmid.subset he
      simp at he2
      rcases he2 with rfl | rfl | rfl <;> rfl
    · split at he <;> simp at he
      subst he; rfl
  rcases h with h | ⟨cfg, hcfg, h | ⟨hcl, h | ⟨store, hst, hmgr⟩⟩⟩
  · obtain ⟨mid, hmid, ht⟩ := exportAction_of_early_failure env c err hsink (.inl h)
    rw [ht]; exact ⟨rfl, early mid hmid⟩
  · obtain ⟨mid, hmid, ht⟩ :=
      exportAction_of_early_failure env c err hsink (.inr ⟨cfg, hcfg, .inl h⟩)
    rw [ht]; exact ⟨rfl, early mid hmid⟩
  · obtain ⟨mid, hmid, ht⟩ :=
      exportAction_of_early_failure env c err hsink (.inr ⟨cfg, hcfg, .inr ⟨hcl, h⟩⟩)
    rw [ht]; exact ⟨rfl, early mid hmid⟩
  · have hm : ManagerFails env c cfg store err := ⟨⟨hsink, hcfg, hcl, hst⟩, hmgr⟩
    rw [exportAction_of_managerFails env c cfg store err hm, storeEvents_eq]
    refine ⟨rfl, ?_⟩
    intro e he
    simp only [List.mem_append, openEvents, closeEvents] at he
    rcases he with ((he | he) | he | he) | he
    · split at he <;> simp at he
      subst he; rfl
    · simp at he
      rcases he with rfl | rfl | rfl | rfl <;> rfl
    · simp at he
      rcases he with rfl | rfl <;> rfl
    · split at he <;> simp at he
      subst he; rfl
    · split at he <;> simp at he
      subst he; rfl

/-- Witness for C5: a configuration that cannot be loaded is the returned error. -/
theorem exportAction_setup_failure_witness :
    SetupFails envConfigFails ctxStdout (.errorsNew "no such file") ∧
      (exportAction envConfigFails ctxStdout).result = some (.errorsNew "no such file") ∧
      ∀ e ∈ (exportAction envConfigFails ctxStdout).trace, e.isMgrRun = false :=
  have h : SetupFails envConfigFails ctxStdout (.errorsNew "no such file") :=
    ⟨⟨by decide, fun h => absurd h (by decide)⟩, .inl rfl⟩
  ⟨h, exportAction_setup_failure envConfigFails ctxStdout (.errorsNew "no such file") h⟩

/-- C6: the sink depends on the number of arguments alone. With none, no file is created
or closed and every serialization event targets standard output. With one, `os.Create` is
called on it first; its failure is the result and ends the action, and on success no other
file is created and every serialization event targets that file. With two or more the
action returns "too many arguments (wanted at most one)" with an empty trace. -/
theorem exportAction_sink_by_argument_count {τ : Type} (env : Env τ) (c : Context) :
    (c.args.length = 0 →
      ∀ e ∈ (exportAction env c).trace, e.isOsCreate = false ∧ e.isFileClose = false ∧
        ∀ o, e.sink? = some o → o = .stdout) ∧
    (c.args.length = 1 →
      (∀ err, env.osCreate (c.args.headD "") = some err →
        exportAction env c = ⟨[.osCreate (c.args.headD "")], some err⟩) ∧
      (env.osCreate (c.args.headD "") = none →
        ∃ rest, (exportAction env c).trace = .osCreate (c.args.headD "") :: rest ∧
          ∀ e ∈ rest, e.isOsCreate = false ∧
            ∀ o, e.sink? = some o → o = .file (c.args.headD ""))) ∧
    (2 ≤ c.args.length →
      exportAction env c =
        ⟨[], some (.errorsNew "too many arguments (wanted at most one)")⟩) := by
  refine ⟨fun h0 => ?_, fun h1 => ⟨fun err herr => ?_, fun hnone => ?_⟩, fun h2 => ?_⟩
  · have hsink : SinkOpened env c := ⟨by omega, fun h => by omega⟩
    obtain ⟨mid, ht, hmid⟩ := exportAction_trace_of_sinkOpened env c hsink
    simp only [openEvents, closeEvents, selectedSink, h0, if_true, List.nil_append,
      List.append_nil] at ht hmid
    rw [ht]
    exact hmid
  · rcases exportAction_cases env c with
      ⟨h2, _⟩ | ⟨_, err2, hc, ht⟩ | ⟨hs, _⟩ | ⟨_, _, _, hs, _⟩ | ⟨_, _, hs, _⟩
    · omega
    · rw [herr] at hc; cases hc; exact ht
    · rw [hs.2 h1] at herr; cases herr
    · rw [hs.1.2 h1] at herr; cases herr
    · rw [hs.1.2 h1] at herr; cases herr
  · have hsink : SinkOpened env c := ⟨by omega, fun _ => hnone⟩
    obtain ⟨mid, ht, hmid⟩ := exportAction_trace_of_sinkOpened env c hsink
    have hne : ¬ c.args.length = 0 := by omega
    simp only [openEvents, closeEvents, selectedSink, hne, if_false] at ht hmid
    refine ⟨mid ++ [.fileClose (c.args.headD "")], by simp [ht], ?_⟩
    intro e he
    rcases List.mem_append.mp he with he | he
    · exact ⟨(hmid e he).1, (hmid e he).2.2⟩
    · simp at he
      subst he; simp [Event.isOsCreate, Event.sink?]
  · rcases exportAction_cases env c with
      ⟨_, ht⟩ | ⟨h1, _⟩ | ⟨hs, _⟩ | ⟨_, _, _, hs, _⟩ | ⟨_, _, hs, _⟩
    · exact ht
    · omega
    · have := hs.1; omega
    · have := hs.1.1; omega
    · have := hs.1.1; omega

/-- Witness for C6: two arguments are refused before anything is done. -/
theorem exportAction_sink_by_argument_count_witness :
    2 ≤ ctxTwoArgs.args.length ∧
      exportAction envOk ctxTwoArgs =
        ⟨[], some (.errorsNew "too many arguments (wanted at most one)")⟩ :=
  ⟨by decide, (exportAction_sink_by_argument_count envOk ctxTwoArgs).2.2 (by decide)⟩

/-- C9: with exactly one argument and a successfully created file, the trace ends with the
closing of that file and no earlier event closes a file; every call of `store.Store` and
every write therefore precedes the one call of `f.Close()`. -/
theorem exportAction_closes_file_last {τ : Type} (env : Env τ) (c : Context)
    (hlen : c.args.length = 1) (hcreate : env.osCreate (c.args.headD "") = none) :
    ∃ pre, (exportAction env c).trace = pre ++ [.fileClose (c.args.headD "")] ∧
      ∀ e ∈ pre, e.isFileClose = false := by
  have hsink : SinkOpened env c := ⟨by omega, fun _ => hcreate⟩
  obtain ⟨mid, ht, hmid⟩ := exportAction_trace_of_sinkOpened env c hsink
  have hne : ¬ c.args.length = 0 := by omega
  simp only [openEvents, closeEvents, hne, if_false] at ht
  refine ⟨[.osCreate (c.args.headD "")] ++ mid, ht, ?_⟩
  intro e he
  rcases List.mem_append.mp he with he | he
  · simp at he
    subst he; rfl
  · exact (hmid e he).2.1

/-- Witness for C9: after a failing run the file is closed last, after the snapshot. -/
theorem exportAction_closes_file_last_witness :
    ctxFile.args.length = 1 ∧ envRunFails.osCreate (ctxFile.args.headD "") = none ∧
      ∃ pre, (exportAction envRunFails ctxFile).trace = pre ++ [.fileClose "out.json"] ∧
        ∀ e ∈ pre, e.isFileClose = false :=
  ⟨rfl, rfl, exportAction_closes_file_last envRunFails ctxFile rfl rfl⟩

/-- The body of the action never calls `store.Store`: it is the same for every behaviour of
that call. -/
theorem exportBody_withStoreStore {τ : Type} (env : Env τ) (c : Context)
    (s : Sink → StoreData → String × Option GoError) :
    exportBody (env.withStoreStore s) c = exportBody env c := rfl

/-- C10: the value returned by `exportAction` is the same for every behaviour of
`store.Store`, failing or not; an error of a `store.Store` call of the trace is printed on
standard error; and there is an invocation whose serialization fails and which returns
nil. -/
theorem exportAction_result_ignores_store_error {τ : Type} (env : Env τ) (c : Context) :
    (∀ s, (exportAction (env.withStoreStore s) c).result = (exportAction env c).result) ∧
    (∀ out data err, .storeStore out data ∈ (exportAction env c).trace →
      (env.storeStore out data).2 = some err →
      .stderrPrintln err.Error ∈ (exportAction env c).trace) ∧
    (∃ (env0 : Env Nat) (c0 : Context), (∀ out data, (env0.storeStore out data).2 ≠ none) ∧
      (exportAction env0 c0).result = none) := by
  refine ⟨fun s => ?_, ?_, ⟨envStoreFails, ctxStdout, fun _ _ => by simp [envStoreFails,
    Env.withStoreStore], rfl⟩⟩
  · simp only [exportAction, exportBody_withStoreStore]
  · intro out data err hmem herr
    have hopen : Event.storeStore out data ∉ openEvents c := by
      unfold openEvents; split <;> simp
    have hclose : Event.storeStore out data ∉ closeEvents c := by
      unfold closeEvents; split <;> simp
    rcases exportAction_cases env c with
      ⟨_, ht⟩ | ⟨_, _, _, ht⟩ | ⟨_, _, mid, hmid, ht⟩ | ⟨cfg, store, e, hm⟩ | ⟨cfg, store, hok⟩
    · rw [ht] at hmem; simp at hmem
    · rw [ht] at hmem; simp at hmem
    · rw [ht] at hmem
      simp only [List.mem_append, hopen, hclose, or_false, false_or] at hmem
      have := hmid.subset hmem
      simp at this
    · rw [exportAction_of_managerFails _ _ _ _ _ hm, storeEvents_eq] at hmem ⊢
      simp only [List.mem_append, hopen, hclose, or_false, false_or] at hmem
      rcases hmem with hmem | hmem | hmem
      · simp at hmem
      · simp at hmem
        obtain ⟨rfl, rfl⟩ := hmem
        simp [herr]
      · split at hmem <;> simp at hmem
    · rw [exportAction_of_setupOk _ _ _ _ hok, storeEvents_eq] at hmem ⊢
      simp only [List.mem_append, hopen, hclose, or_false, false_or] at hmem
      rcases hmem with hmem | hmem | hmem
      · simp at hmem
      · simp at hmem
        obtain ⟨rfl, rfl⟩ := hmem
        simp [herr]
      · split at hmem <;> simp at hmem

/-- Witness for C10: a failing serialization is printed on standard error. -/
theorem exportAction_result_ignores_store_error_witness :
    Event.storeStore .stdout ["rec"] ∈ (exportAction envStoreFails ctxStdout).trace ∧
      (envStoreFails.storeStore .stdout ["rec"]).2 = some (.errorsNew "short write") ∧
      Event.stderrPrintln "short write" ∈ (exportAction envStoreFails ctxStdout).trace ∧
      (exportAction envStoreFails ctxStdout).result = none :=
  ⟨by decide, rfl,
    (exportAction_result_ignores_store_error envStoreFails ctxStdout).2.1 .stdout ["rec"]
      (.errorsNew "short write") (by decide) rfl, rfl⟩

/-- Reading a map after a write. -/
theorem GoMap.get_set {α : Type} (m : GoMap α) (k : String) (v : α) (n : String) :
    (m.set k v).get n = if n = k then some v else m.get n := by
  unfold GoMap.set GoMap.get
  by_cases h : n = k
  · subst h; simp [List.lookup_cons]
  · have hb : (n == k) = false := by simpa using h
    simp only [List.lookup_cons, hb, h, if_false]
    induction m with
    | nil => simp
    | cons e t ih =>
      obtain ⟨ek, ev⟩ := e
      by_cases hek : ek = k
      · have hne : (n == ek) = false := by
          rw [hek]; exact hb
        simp [List.filter_cons, hek, List.lookup_cons, ih, hb]
      · by_cases hn : n = ek
        · simp [List.filter_cons, hek, List.lookup_cons, hn]
        · have hne : (n == ek) = false := by simpa using hn
          simp [List.filter_cons, hek, List.lookup_cons, hne, ih]

/-- A name is a key exactly when reading it finds a value. -/
theorem GoMap.mem_keys_iff {α : Type} (m : GoMap α) (n : String) :
    n ∈ m.keys ↔ (m.get n).isSome = true := by
  unfold GoMap.keys GoMap.get
  induction m with
  | nil => simp
  | cons e t ih =>
    obtain ⟨ek, ev⟩ := e
    by_cases hn : n = ek
    · simp [List.lookup_cons, hn]
    · have hne : (n == ek) = false := by simpa using hn
      simp [List.lookup_cons, hne, hn, ← ih]

/-- Keys stay unique under a write. -/
theorem GoMap.nodup_keys_set {α : Type} (m : GoMap α) (k : String) (v : α)
    (h : m.keys.Nodup) : (m.set k v).keys.Nodup := by
  unfold GoMap.set GoMap.keys at *
  simp only [List.map_cons, List.nodup_cons]
  constructor
  · simp [List.mem_map, List.mem_filter]
  · exact (List.Nodup.sublist (List.Sublist.map _ (List.filter_sublist _)) h)

/-- The loop of `buildConfigs`, started from any map `cfgs`: a name of the configuration
gets the decoder of its own fragment, every other name keeps what `cfgs` held. -/
theorem foldl_set_get {τ : Type} (m : Node → Except GoError String)
    (u : String → τ → τ × Option GoError) (config : GoMap Node)
    (cfgs : GoMap (ConfigUnmarshaler τ)) (h : config.keys.Nodup) (n : String) :
    (config.foldl (fun cfgs e => cfgs.set e.1 (decoder m u e.2)) cfgs).get n =
      match config.get n with
      | some node => some (decoder m u node)
      | none => cfgs.get n := by
  induction config generalizing cfgs with
  | nil => simp [GoMap.get]
  | cons e t ih =>
    obtain ⟨ek, ev⟩ := e
    have hk : ek ∉ GoMap.keys t := (List.nodup_cons.mp h).1
    have ht : (GoMap.keys t).Nodup := (List.nodup_cons.mp h).2
    rw [List.foldl_cons, ih _ ht]
    by_cases hn : n = ek
    · subst hn
      have hnone : GoMap.get t n = none := by
        have := (GoMap.mem_keys_iff t n).not.mp hk
        simpa using this
      have hcons : GoMap.get ((n, ev) :: t) n = some ev := by
        simp [GoMap.get, List.lookup_cons]
      rw [hnone, hcons]
      simp [GoMap.get_set]
    · have hne : (n == ek) = false := by simpa using hn
      have hcons : GoMap.get ((ek, ev) :: t) n = GoMap.get t n := by
        simp [GoMap.get, List.lookup_cons, hne]
      rw [hcons]
      cases GoMap.get t n <;> simp [GoMap.get_set, hn]

/-- The loop of `buildConfigs` keeps keys unique. -/
theorem foldl_set_nodup {τ : Type} (m : Node → Except GoError String)
    (u : String → τ → τ × Option GoError) (config : GoMap Node)
    (cfgs : GoMap (ConfigUnmarshaler τ)) (h : cfgs.keys.Nodup) :
    (config.foldl (fun cfgs e => cfgs.set e.1 (decoder m u e.2)) cfgs).keys.Nodup := by
  induction config generalizing cfgs with
  | nil => simpa using h
  | cons e t ih => exact ih _ (GoMap.nodup_keys_set cfgs e.1 _ h)

/-- C7: the decoder map is the pointwise image of the configuration map. Its keys are the
names of the configuration, each once; the decoder read under a name is the decoder of
the fragment of that very name, and a name without fragment has none; a decoder returns the
marshalling error and the target unchanged when marshalling fails, and otherwise the
target and error produced by unmarshalling the marshalled fragment. -/
theorem buildConfigs_pointwise {τ : Type} (m : Node → Except GoError String)
    (u : String → τ → τ × Option GoError) (config : GoMap Node) (h : config.keys.Nodup) :
    (∀ n, n ∈ (buildConfigs m u config).keys ↔ n ∈ config.keys) ∧
    (buildConfigs m u config).keys.Nodup ∧
    (∀ n, (buildConfigs m u config).get n = (config.get n).map (decoder m u)) ∧
    (∀ node v, decoder m u node v =
      match m node with
      | .error err => (v, some err)
      | .ok b => u b v) := by
  have hget : ∀ n, (buildConfigs m u config).get n = (config.get n).map (decoder m u) := by
    intro n
    unfold buildConfigs
    rw [foldl_set_get m u config [] h n]
    cases GoMap.get config n <;> simp [GoMap.get]
  refine ⟨fun n => ?_, ?_, hget, fun node v => rfl⟩
  · rw [GoMap.mem_keys_iff, GoMap.mem_keys_iff, hget]
    cases GoMap.get config n <;> simp
  · exact foldl_set_nodup m u config [] (by simp [GoMap.keys])

/-- Witness for C7: the decoder under "alpine" is the decoder of the fragment of "alpine". -/
theorem buildConfigs_pointwise_witness :
    cfgOk.updatersConfig.keys.Nodup ∧
      (buildConfigs envOk.jsonMarshal envOk.jsonUnmarshal cfgOk.updatersConfig).get "alpine" =
        some (decoder envOk.jsonMarshal envOk.jsonUnmarshal ⟨"b"⟩) :=
  ⟨by decide,
    (buildConfigs_pointwise envOk.jsonMarshal envOk.jsonUnmarshal cfgOk.updatersConfig
      (by decide)).2.2.1 "alpine"⟩

end Clairctl
